import Mathlib

/-!
Verification development for the perflogtool core (src/main.rs, src/pdh_helper.rs).

The native Windows PDH subsystem is modelled as an explicit environment
(structures of response functions); the Rust functions of pdh_helper.rs are
translated into Lean functions over those environments.  Rust panics are
modelled as error values of an Except type; machine integers are modelled as
Nat/Int with explicit wrap-around (mod 2 ^ 64) where the Rust code performs
wrapping casts or arithmetic.
-/

namespace PerfLogTool

/-! ### Windows PDH status constants (values from the Windows SDK, as imported
by pdh_helper.rs via the windows crate) -/

def PDH_MORE_DATA : Nat := 0x800007D2
def PDH_CSTATUS_NO_OBJECT : Nat := 0xC0000BB8
def PDH_INVALID_DATA : Nat := 0xC0000BC6
/-- Status returned by PdhCollectQueryDataWithTime when the bound log has no
more samples (the log-exhaustion code from the Windows SDK; the repository
never names it, which is what claim C1 is about). -/
def PDH_NO_MORE_DATA : Nat := 0xC0000BCC
def PERF_DETAIL_WIZARD : Nat := 400

/-! ### Multi-String Decoder (get_strings_from_pwstr)

The buffer is a sequence of 16-bit code units (modelled as Nat values below
2 ^ 16).  Rust reads buffer_size units from the pointer, decodes them with
String::from_utf16 (which fails on unpaired surrogates; modelled by
utf16Decode returning none), splits the resulting string on the NUL char and
pops the last two pieces. -/

inductive DecodeError where
  | invalidUtf16
  deriving DecidableEq

/-- UTF-16 decoding of a list of 16-bit code units into unicode scalar
values, the model of String::from_utf16: units outside the surrogate range
decode to themselves, a high surrogate must be followed by a low surrogate
(decoding to a supplementary scalar), anything else is invalid. -/
def utf16Decode : List Nat → Option (List Nat)
  | [] => some []
  | u :: rest =>
    if u < 0xD800 ∨ 0xE000 ≤ u then
      (utf16Decode rest).map (fun cs => u :: cs)
    else if u < 0xDC00 then
      match rest with
      | [] => none
      | v :: rest2 =>
        if 0xDC00 ≤ v ∧ v < 0xE000 then
          (utf16Decode rest2).map
            (fun cs => (0x10000 + (u - 0xD800) * 0x400 + (v - 0xDC00)) :: cs)
        else none
    else none

/-- Splitting a scalar sequence at every NUL scalar, the model of
str::split applied with the NUL char: n separators yield n + 1 pieces. -/
def splitOnZero : List Nat → List (List Nat)
  | [] => [[]]
  | c :: rest =>
    if c = 0 then [] :: splitOnZero rest
    else
      match splitOnZero rest with
      | [] => [[c]]
      | s :: ss => (c :: s) :: ss

/-- Reassemble a Lean String from decoded scalar values (utf16Decode only
produces valid scalars, on which Char.ofNat is exact). -/
def stringOfScalars (cs : List Nat) : String :=
  ⟨cs.map Char.ofNat⟩

/-- Model of get_strings_from_pwstr: slice buffer_size units from the
buffer, decode as UTF-16 (unwrap panics on invalid text, modelled as a
DecodeError), split on the NUL char, then pop the last two elements. -/
def get_strings_from_pwstr (object_list : List Nat) (buffer_size : Nat) :
    Except DecodeError (List String) :=
  let slice := object_list.take buffer_size
  match utf16Decode slice with
  | none => .error .invalidUtf16
  | some cs =>
    let strings := (splitOnZero cs).map stringOfScalars
    .ok strings.dropLast.dropLast

/-! Spec-side encoders used to state the round-trip property of the decoder
(claim C4): a sequence of strings, each encoded as UTF-16 code units and
terminated by a NUL unit, with one extra terminating NUL for the whole
buffer. -/

/-- UTF-16 encoding of one unicode scalar value. -/
def utf16EncodeChar (c : Nat) : List Nat :=
  if c < 0x10000 then [c]
  else [0xD800 + (c - 0x10000) / 0x400, 0xDC00 + (c - 0x10000) % 0x400]

/-- UTF-16 encoding of a scalar sequence. -/
def utf16Encode (cs : List Nat) : List Nat :=
  (cs.map utf16EncodeChar).flatten

/-- The scalar sequence of a String. -/
def stringScalars (s : String) : List Nat :=
  s.data.map Char.toNat

/-- Encoding of an ordered sequence of strings as a double-NUL-terminated
multi-string buffer: each string as NUL-terminated UTF-16 code units, plus
one extra terminating NUL. -/
def encodeMultiSz (ss : List String) : List Nat :=
  ((ss.map (fun s => utf16Encode (stringScalars s) ++ [0])).flatten) ++ [0]

/-! ### Timestamp Converter (get_time_from_filetime)

time::PrimitiveDateTime is modelled as a count of nanoseconds from
0001-01-01T00:00:00 on the proleptic Gregorian calendar.  The Rust code
computes datetime(1601-01-01 00:00:00) + Duration::from_nanos(filetime as
u64 * 100); the i64-to-u64 cast is value mod 2 ^ 64 and the u64
multiplication by 100 wraps mod 2 ^ 64 (release-profile semantics). -/

/-- Nanoseconds from 0001-01-01 to 1601-01-01 (400 Gregorian cycles of
146097 days each span 1600 years: 1600 * 365 + 388 leap days). -/
def FILETIME_BASEDATE_NANOS : Nat := 584388 * 86400 * 1000000000

def get_time_from_filetime (filetime : Int) : Nat :=
  FILETIME_BASEDATE_NANOS + ((filetime % 2 ^ 64).toNat * 100) % 2 ^ 64

/-! ### Data model (PerfLogSummary, MachineSummary, ObjectSummary) -/

structure ObjectSummary where
  name : String
  counters : List String
  instances : List String
  deriving DecidableEq

structure MachineSummary where
  name : String
  objects : List ObjectSummary
  deriving DecidableEq

structure PerfLogSummary where
  machines : List MachineSummary
  start_time : Nat
  end_time : Nat
  deriving DecidableEq

/-- Model of PerfLogSummary::get_all_counters: the nested machine, object,
instance, counter loops, each push appending one formatted path.  The Rust
format string produces machine + backslash + object + open-paren + instance
+ close-paren + backslash + counter. -/
def get_all_counters (s : PerfLogSummary) : List String :=
  s.machines.foldl
    (fun acc machine =>
      machine.objects.foldl
        (fun acc object =>
          object.instances.foldl
            (fun acc inst =>
              object.counters.foldl
                (fun acc counter =>
                  acc ++ [machine.name ++ "\\" ++ object.name ++ "(" ++ inst
                    ++ ")" ++ "\\" ++ counter])
                acc)
            acc)
        acc)
    []

/-- The fully-qualified counter path as a function of its four components,
used to state the cross-product characterization of get_all_counters. -/
def counterPath (machine object inst counter : String) : String :=
  machine ++ "\\" ++ object ++ "(" ++ inst ++ ")" ++ "\\" ++ counter

/-! ### Catalog Walker (enum_machines, enum_objects, enum_object_items,
get_time_range, get_perflog_summary)

The native side is an environment assigning, to each call the code makes
(identified by its parameters), the status(es) and filled buffers it
returns.  First-phase calls return a status and a required size; second
phase calls return a status and the buffer contents the native side wrote
(the slice subsequently decoded has exactly that length). -/

structure CatalogEnv where
  machinesFirst : Nat × Nat
  machinesSecond : Nat × List Nat
  objectsFirst : String → Nat × Nat
  objectsSecond : String → Nat × List Nat
  itemsFirst : String → String → Nat × Nat × Nat
  itemsSecond : String → String → Nat × List Nat × List Nat
  timeRange : Nat × Int × Int

inductive PdhError where
  | enumMachinesSizeFailed (status : Nat)
  | enumMachinesFailed (status : Nat)
  | enumObjectsSizeFailed (status : Nat)
  | enumObjectsFailed (status : Nat)
  | enumItemsSizeFailed (status : Nat)
  | enumItemsFailed (status : Nat)
  | timeRangeFailed (status : Nat)
  | bindFailed (status : Nat)
  | decodeFailed (e : DecodeError)
  deriving DecidableEq

/-- Model of enum_machines: two-phase protocol; panic unless the first call
reports PDH_MORE_DATA and the second reports success; decode the filled
buffer. -/
def enum_machines (env : CatalogEnv) : Except PdhError (List String) :=
  if env.machinesFirst.1 ≠ PDH_MORE_DATA then
    .error (.enumMachinesSizeFailed env.machinesFirst.1)
  else if env.machinesSecond.1 ≠ 0 then
    .error (.enumMachinesFailed env.machinesSecond.1)
  else
    match get_strings_from_pwstr env.machinesSecond.2 env.machinesSecond.2.length with
    | .error e => .error (.decodeFailed e)
    | .ok names => .ok names

/-- Model of enum_objects (parameterized by machine name): same two-phase
protocol at the PERF_DETAIL_WIZARD detail level. -/
def enum_objects (env : CatalogEnv) (machine : String) :
    Except PdhError (List String) :=
  if (env.objectsFirst machine).1 ≠ PDH_MORE_DATA then
    .error (.enumObjectsSizeFailed (env.objectsFirst machine).1)
  else if (env.objectsSecond machine).1 ≠ 0 then
    .error (.enumObjectsFailed (env.objectsSecond machine).1)
  else
    match get_strings_from_pwstr (env.objectsSecond machine).2
        (env.objectsSecond machine).2.length with
    | .error e => .error (.decodeFailed e)
    | .ok names => .ok names

/-- Model of enum_object_items: if the first-phase status is
PDH_CSTATUS_NO_OBJECT the object is skipped (ok none); any other
non-PDH_MORE_DATA first-phase status and any non-zero second-phase status
panic; otherwise both buffers (counter list, instance list) are decoded,
counters first. -/
def enum_object_items (env : CatalogEnv) (machine object : String) :
    Except PdhError (Option (List String × List String)) :=
  if (env.itemsFirst machine object).1 = PDH_CSTATUS_NO_OBJECT then .ok none
  else if (env.itemsFirst machine object).1 ≠ PDH_MORE_DATA then
    .error (.enumItemsSizeFailed (env.itemsFirst machine object).1)
  else if (env.itemsSecond machine object).1 ≠ 0 then
    .error (.enumItemsFailed (env.itemsSecond machine object).1)
  else
    match get_strings_from_pwstr (env.itemsSecond machine object).2.1
        (env.itemsSecond machine object).2.1.length with
    | .error e => .error (.decodeFailed e)
    | .ok counter_names =>
      match get_strings_from_pwstr (env.itemsSecond machine object).2.2
          (env.itemsSecond machine object).2.2.length with
      | .error e => .error (.decodeFailed e)
      | .ok instance_names => .ok (some (counter_names, instance_names))

/-- Model of get_time_range: single call, panic on non-zero status, convert
both filetime boundaries. -/
def get_time_range (env : CatalogEnv) : Except PdhError (Nat × Nat) :=
  if env.timeRange.1 ≠ 0 then .error (.timeRangeFailed env.timeRange.1)
  else .ok (get_time_from_filetime env.timeRange.2.1,
            get_time_from_filetime env.timeRange.2.2)

/-- The per-machine object loop of get_perflog_summary: enum_object_items
returning none skips the object (continue); a some result appends an
ObjectSummary. -/
def walkObjects (env : CatalogEnv) (machine : String) :
    List String → Except PdhError (List ObjectSummary)
  | [] => .ok []
  | object :: rest =>
    match enum_object_items env machine object with
    | .error e => .error e
    | .ok none => walkObjects env machine rest
    | .ok (some (counter_names, instance_names)) =>
      match walkObjects env machine rest with
      | .error e => .error e
      | .ok objs => .ok (⟨object, counter_names, instance_names⟩ :: objs)

/-- The machine loop of get_perflog_summary: every enumerated machine
produces a MachineSummary (with whatever objects survived walkObjects). -/
def walkMachines (env : CatalogEnv) :
    List String → Except PdhError (List MachineSummary)
  | [] => .ok []
  | machine :: rest =>
    match enum_objects env machine with
    | .error e => .error e
    | .ok object_names =>
      match walkObjects env machine object_names with
      | .error e => .error e
      | .ok objs =>
        match walkMachines env rest with
        | .error e => .error e
        | .ok ms => .ok (⟨machine, objs⟩ :: ms)

/-- Model of get_perflog_summary: enumerate machines, walk them, resolve
the time range, assemble the summary. -/
def get_perflog_summary (env : CatalogEnv) : Except PdhError PerfLogSummary :=
  match enum_machines env with
  | .error e => .error e
  | .ok machine_names =>
    match walkMachines env machine_names with
    | .error e => .error e
    | .ok machines =>
      match get_time_range env with
      | .error e => .error e
      | .ok t => .ok ⟨machines, t.1, t.2⟩

/-! ### Data Source Binder (bind_input_logfiles) -/

structure BindEnv where
  bind : String → Nat × Int

/-- The string bind_input_logfiles builds: push each file path followed by
one NUL, then push one final NUL. -/
def bind_file_list (files : List String) : String :=
  (files.foldl (fun file_list file => file_list ++ file ++ "\x00") "") ++ "\x00"

/-- Model of bind_input_logfiles: pass the packed string to the native bind
call; panic on non-zero status, otherwise return the data-source handle. -/
def bind_input_logfiles (env : BindEnv) (files : List String) :
    Except PdhError Int :=
  let r := env.bind (bind_file_list files)
  if r.1 ≠ 0 then .error (.bindFailed r.1) else .ok r.2

/-- Spec-side form of the bind argument: each file path followed by a single
NUL separator (a NUL-separated list). -/
def nullSeparated : List String → String
  | [] => ""
  | f :: rest => f ++ "\x00" ++ nullSeparated rest

/-! ### Counter Value Reader (read_counter_values)

HashMap String V is modelled as an association list with replace-on-insert
semantics (one entry per key).  The native side is an environment giving
the status/handle of the i-th PdhAddCounterW call, the status/filetime of
the k-th PdhCollectQueryDataWithTime call, and the formatted-value result
of PdhGetFormattedCounterValue at step k for a counter handle.  The
unbounded Rust loop takes a fuel parameter; a run that exhausts its fuel
before the advance fails is reported as none. -/

/-- The sample variants of CounterValueWithTime; the f64 payload of the
Double variant is not carried (this code never constructs it). -/
inductive CounterValueWithTime where
  | long (time : Nat) (value : Int)
  | double (time : Nat)
  | large (time : Nat) (value : Int)
  deriving DecidableEq

/-- One native call made by read_counter_values, recorded so that handle
lifecycle properties can be stated (note the source contains no
PdhCloseQuery or PdhCloseLog call inside read_counter_values). -/
inductive PdhEvent where
  | openQuery
  | addCounter
  | collectData
  | formatValue
  | closeQuery
  | closeLog
  deriving DecidableEq

/-- Result of one PdhGetFormattedCounterValue call: the call status, the
per-value CStatus field, and the 64-bit integer payload. -/
structure FmtResult where
  status : Nat
  cstatus : Nat
  largeValue : Int
  deriving DecidableEq

structure ReadEnv where
  openQueryStatus : Nat
  addCounter : Nat → Nat × Int
  collect : Nat → Nat × Int
  format : Nat → Int → FmtResult

/-- The println diagnostics read_counter_values emits for recoverable
per-sample conditions. -/
inductive Diag where
  | invalidData (time : Nat) (counter : String)
  | unexpectedCStatus (time : Nat) (counter : String) (cstatus : Nat)
  deriving DecidableEq

/-- The panics of read_counter_values. -/
inductive RunError where
  | openQueryFailed (status : Nat)
  | addCounterFailed (status : Nat)
  | formatFailed (status : Nat)
  | keyNotFound
  deriving DecidableEq

/-- HashMap lookup on the association-list model. -/
def alookup (k : String) : List (String × α) → Option α
  | [] => none
  | (k2, v) :: rest => if k2 = k then some v else alookup k rest

/-- HashMap insert on the association-list model: replaces the value of an
existing key, otherwise appends a new entry. -/
def insertReplace (k : String) (v : α) : List (String × α) → List (String × α)
  | [] => [(k, v)]
  | (k2, w) :: rest =>
    if k2 = k then (k, v) :: rest else (k2, w) :: insertReplace k v rest

/-- The mutable state of a read_counter_values run: the counter_handles and
counter_data maps, the diagnostics printed so far, and the native calls
made so far. -/
structure RState where
  handles : List (String × Int)
  data : List (String × List CounterValueWithTime)
  diags : List Diag
  events : List PdhEvent
  deriving DecidableEq

/-- Handling of one registered counter at one successful advance: call the
format function; on PDH_INVALID_DATA print a diagnostic and record nothing;
on success with zero CStatus push one Large sample onto that counter's
series (the expect panics if the key is absent); on success with non-zero
CStatus print a diagnostic and record nothing; on any other status panic. -/
def processCounter (env : ReadEnv) (k : Nat) (t : Nat) (name : String)
    (h : Int) (st : RState) : RState × Option RunError :=
  if (env.format k h).status = PDH_INVALID_DATA then
    ({ st with
        events := st.events ++ [.formatValue],
        diags := st.diags ++ [.invalidData t name] }, none)
  else if (env.format k h).status = 0 then
    if (env.format k h).cstatus = 0 then
      match alookup name st.data with
      | some vs =>
        ({ st with
            events := st.events ++ [.formatValue],
            data := insertReplace name
              (vs ++ [.large t (env.format k h).largeValue]) st.data },
          none)
      | none =>
        ({ st with events := st.events ++ [.formatValue] }, some .keyNotFound)
    else
      ({ st with
          events := st.events ++ [.formatValue],
          diags := st.diags ++ [.unexpectedCStatus t name (env.format k h).cstatus] },
        none)
  else
    ({ st with events := st.events ++ [.formatValue] },
      some (.formatFailed (env.format k h).status))

/-- The per-advance loop over the registered counters; the first panic
aborts the rest of the iteration. -/
def processStep (env : ReadEnv) (k : Nat) (t : Nat) :
    List (String × Int) → RState → RState × Option RunError
  | [], st => (st, none)
  | (name, h) :: rest, st =>
    match processCounter env k t name h st with
    | (st2, none) => processStep env k t rest st2
    | (st2, some e) => (st2, some e)

/-- The collection loop: advance the query cursor; any non-zero status
breaks the loop (returning the accumulated data normally); otherwise
convert the returned filetime and process every registered counter. -/
def collectLoop (env : ReadEnv) :
    Nat → Nat → RState → Option (RState × Option RunError)
  | 0, _, _ => none
  | fuel + 1, k, st =>
    if (env.collect k).1 ≠ 0 then
      some ({ st with events := st.events ++ [.collectData] }, none)
    else
      match processStep env k (get_time_from_filetime (env.collect k).2)
          st.handles { st with events := st.events ++ [.collectData] } with
      | (st2, none) => collectLoop env fuel (k + 1) st2
      | (st2, some e) => some (st2, some e)

/-- The registration loop: the i-th requested path is registered by the
i-th PdhAddCounterW call; a non-zero status panics; otherwise the handle
is inserted into counter_handles and an empty series into counter_data. -/
def registerCounters (env : ReadEnv) :
    List String → Nat → RState → RState × Option RunError
  | [], _, st => (st, none)
  | counter :: rest, i, st =>
    if (env.addCounter i).1 ≠ 0 then
      ({ st with events := st.events ++ [.addCounter] },
        some (.addCounterFailed (env.addCounter i).1))
    else
      registerCounters env rest (i + 1)
        { st with
            events := st.events ++ [.addCounter],
            handles := insertReplace counter (env.addCounter i).2 st.handles,
            data := insertReplace counter [] st.data }

/-- Model of read_counter_values: open the query (panic on failure),
register every requested counter path, then run the collection loop.
The data map of the final state is the returned CounterSeries. -/
def read_counter_values (env : ReadEnv) (counters_to_read : List String)
    (fuel : Nat) : Option (RState × Option RunError) :=
  if env.openQueryStatus ≠ 0 then
    some (⟨[], [], [], [.openQuery]⟩, some (.openQueryFailed env.openQueryStatus))
  else
    match registerCounters env counters_to_read 0 ⟨[], [], [], [.openQuery]⟩ with
    | (st, some e) => some (st, some e)
    | (st, none) => collectLoop env fuel 0 st

/-- The (path, handle) pair produced by the i-th registration call, for
every position of the requested list. -/
def regPairs (env : ReadEnv) (paths : List String) : List (String × Int) :=
  (paths.enum).map (fun ip => (ip.2, (env.addCounter ip.1).2))

/-- The value attached to the last occurrence of a key in a pair list. -/
def lastValue (k : String) : List (String × α) → Option α
  | [] => none
  | (k2, v) :: rest =>
    match lastValue k rest with
    | some w => some w
    | none => if k2 = k then some v else none

/-- Decidable equality for Except results, used to evaluate the model on
concrete environments. -/
instance [DecidableEq ε] [DecidableEq α] : DecidableEq (Except ε α) := fun x y =>
  match x, y with
  | .error a, .error b =>
    if h : a = b then .isTrue (by rw [h]) else .isFalse (fun hh => h (by injection hh))
  | .ok a, .ok b =>
    if h : a = b then .isTrue (by rw [h]) else .isFalse (fun hh => h (by injection hh))
  | .error _, .ok _ => .isFalse (fun hh => Except.noConfusion hh)
  | .ok _, .error _ => .isFalse (fun hh => Except.noConfusion hh)

/-! ### Concrete environments used by witnesses and counterexamples -/

/-- A reader environment whose very first advance fails with status 1 — a
code that is neither success nor the log-exhaustion code. -/
def envAdvanceOther : ReadEnv :=
  ⟨0, fun _ => (0, 0), fun _ => (1, 0), fun _ _ => ⟨0, 0, 0⟩⟩

/-- A reader environment whose format calls succeed with CStatus 0 and
value 42. -/
def envFormatOk : ReadEnv :=
  ⟨0, fun _ => (0, 0), fun _ => (0, 0), fun _ _ => ⟨0, 0, 42⟩⟩

/-- A reader environment handing out handle 100 + i to the i-th
registration and exhausting on the first advance. -/
def envDupReg : ReadEnv :=
  ⟨0, fun i => (0, Int.ofNat (100 + i)), fun _ => (PDH_NO_MORE_DATA, 0),
    fun _ _ => ⟨0, 0, 0⟩⟩

/-- A catalog environment over machines A and B where machine A has the one
object O (counters C, instances I) and machine B has the one object P whose
item enumeration reports PDH_CSTATUS_NO_OBJECT. -/
def envTwoMachines : CatalogEnv where
  machinesFirst := (PDH_MORE_DATA, 5)
  machinesSecond := (0, [65, 0, 66, 0, 0])
  objectsFirst := fun _ => (PDH_MORE_DATA, 3)
  objectsSecond := fun m => if m = "A" then (0, [79, 0, 0]) else (0, [80, 0, 0])
  itemsFirst := fun m o =>
    if m = "B" ∧ o = "P" then (PDH_CSTATUS_NO_OBJECT, 0, 0)
    else (PDH_MORE_DATA, 3, 3)
  itemsSecond := fun _ _ => (0, [67, 0, 0], [73, 0, 0])
  timeRange := (0, 0, 0)

/-- The summary the walker produces on envTwoMachines: both machines are
present and the failing object of machine B is dropped. -/
def summaryTwoMachines : PerfLogSummary :=
  ⟨[⟨"A", [⟨"O", ["C"], ["I"]⟩]⟩, ⟨"B", []⟩],
    get_time_from_filetime 0, get_time_from_filetime 0⟩

example : get_perflog_summary envTwoMachines = .ok summaryTwoMachines := by decide

example :
    read_counter_values envAdvanceOther [] 1 =
      some (⟨[], [], [], [.openQuery, .collectData]⟩, none) := by decide

example :
    read_counter_values envDupReg ["a", "b", "a"] 1 =
      some (⟨[("a", 102), ("b", 101)], [("a", []), ("b", [])], [],
        [.openQuery, .addCounter, .addCounter, .addCounter, .collectData]⟩,
        none) := by decide

/-! ## Multi-String Decoder lemmas -/

theorem utf16Decode_cons_bmp (u : Nat) (rest : List Nat)
    (h : u < 0xD800 ∨ 0xE000 ≤ u) :
    utf16Decode (u :: rest) = (utf16Decode rest).map (fun cs => u :: cs) := by
  cases rest with
  | nil => simp only [utf16Decode]; rw [if_pos h]
  | cons v rest2 => simp only [utf16Decode]; rw [if_pos h]

theorem utf16Decode_cons_pair (u v : Nat) (rest : List Nat)
    (hu1 : 0xD800 ≤ u) (hu2 : u < 0xDC00) (hv1 : 0xDC00 ≤ v) (hv2 : v < 0xE000) :
    utf16Decode (u :: v :: rest) =
      (utf16Decode rest).map
        (fun cs => (0x10000 + (u - 0xD800) * 0x400 + (v - 0xDC00)) :: cs) := by
  simp only [utf16Decode]
  rw [if_neg (by omega), if_pos hu2, if_pos ⟨hv1, hv2⟩]

theorem utf16Decode_encode_append (cs rest : List Nat)
    (h : ∀ c ∈ cs, c < 0xD800 ∨ (0xE000 ≤ c ∧ c < 0x110000)) :
    utf16Decode (utf16Encode cs ++ rest) =
      (utf16Decode rest).map (fun ds => cs ++ ds) := by
  induction cs with
  | nil =>
    simp only [utf16Encode, List.map_nil, List.flatten_nil, List.nil_append]
    cases utf16Decode rest <;> simp
  | cons c cs ih =>
    have hc := h c (by simp)
    have hcs : ∀ x ∈ cs, x < 0xD800 ∨ (0xE000 ≤ x ∧ x < 0x110000) :=
      fun x hx => h x (by simp [hx])
    rw [show utf16Encode (c :: cs) = utf16EncodeChar c ++ utf16Encode cs from by
      simp [utf16Encode]]
    by_cases h1 : c < 0x10000
    · rw [show utf16EncodeChar c = [c] from by simp [utf16EncodeChar, h1]]
      simp only [List.append_assoc, List.cons_append, List.singleton_append,
        List.nil_append]
      have hbmp : c < 0xD800 ∨ 0xE000 ≤ c := by omega
      rw [utf16Decode_cons_bmp c (utf16Encode cs ++ rest) hbmp, ih hcs]
      cases utf16Decode rest <;> simp
    · have h2 : c < 0x110000 := by rcases hc with h3 | ⟨_, h3⟩ <;> omega
      have hdiv : (c - 0x10000) / 0x400 < 0x400 :=
        Nat.div_lt_of_lt_mul (by omega)
      have hmod : (c - 0x10000) % 0x400 < 0x400 := Nat.mod_lt _ (by omega)
      rw [show utf16EncodeChar c =
          [0xD800 + (c - 0x10000) / 0x400, 0xDC00 + (c - 0x10000) % 0x400] from by
        simp [utf16EncodeChar, h1]]
      simp only [List.append_assoc, List.cons_append, List.nil_append]
      rw [utf16Decode_cons_pair (0xD800 + (c - 0x10000) / 0x400)
        (0xDC00 + (c - 0x10000) % 0x400) (utf16Encode cs ++ rest)
        (by omega) (by omega) (by omega) (by omega), ih hcs]
      have hval : 0x10000 +
          (0xD800 + (c - 0x10000) / 0x400 - 0xD800) * 0x400 +
          (0xDC00 + (c - 0x10000) % 0x400 - 0xDC00) = c := by
        have := Nat.div_add_mod (c - 0x10000) 0x400
        omega
      rw [hval]
      cases utf16Decode rest <;> simp

theorem utf16Decode_encodeMultiSz (ss : List String) :
    utf16Decode (encodeMultiSz ss) =
      some (((ss.map (fun s => stringScalars s ++ [0])).flatten) ++ [0]) := by
  induction ss with
  | nil =>
    show utf16Decode [0] = some [0]
    rw [utf16Decode_cons_bmp 0 [] (by omega)]
    rfl
  | cons s ss ih =>
    have hsc : ∀ c ∈ stringScalars s, c < 0xD800 ∨ (0xE000 ≤ c ∧ c < 0x110000) := by
      intro c hcmem
      simp only [stringScalars, List.mem_map] at hcmem
      obtain ⟨ch, _, rfl⟩ := hcmem
      have h5 : ch.toNat = ch.val.toNat := rfl
      rcases ch.valid with h3 | ⟨h3, h4⟩
      · exact Or.inl (by omega)
      · exact Or.inr (by omega)
    rw [show encodeMultiSz (s :: ss) =
        utf16Encode (stringScalars s) ++ (0 :: encodeMultiSz ss) from by
      simp [encodeMultiSz, List.append_assoc]]
    rw [utf16Decode_encode_append _ _ hsc,
      utf16Decode_cons_bmp 0 (encodeMultiSz ss) (by omega), ih]
    simp [List.append_assoc]

theorem splitOnZero_append (s rest : List Nat) (h : ∀ c ∈ s, c ≠ 0) :
    splitOnZero (s ++ 0 :: rest) = s :: splitOnZero rest := by
  induction s with
  | nil =>
    show splitOnZero (0 :: rest) = [] :: splitOnZero rest
    simp [splitOnZero]
  | cons c s ih =>
    have hc : c ≠ 0 := h c (by simp)
    have hs : ∀ x ∈ s, x ≠ 0 := fun x hx => h x (by simp [hx])
    rw [List.cons_append]
    simp only [splitOnZero]
    rw [if_neg hc, ih hs]

theorem splitOnZero_multiSz (ls : List (List Nat))
    (h : ∀ l ∈ ls, ∀ c ∈ l, c ≠ 0) :
    splitOnZero ((ls.map (fun l => l ++ [0])).flatten ++ [0]) = ls ++ [[], []] := by
  induction ls with
  | nil =>
    show splitOnZero [0] = [] ++ [[], []]
    rfl
  | cons l ls ih =>
    have hl : ∀ c ∈ l, c ≠ 0 := h l (by simp)
    have hls : ∀ x ∈ ls, ∀ c ∈ x, c ≠ 0 := fun x hx => h x (by simp [hx])
    rw [show ((l :: ls).map (fun l2 => l2 ++ [0])).flatten ++ [0] =
        l ++ 0 :: ((ls.map (fun l2 => l2 ++ [0])).flatten ++ [0]) from by
      simp [List.append_assoc]]
    rw [splitOnZero_append l _ hl, ih hls]
    rfl

theorem stringOfScalars_stringScalars (s : String) :
    stringOfScalars (stringScalars s) = s := by
  have h2 : (s.data.map Char.toNat).map Char.ofNat = s.data := by
    rw [List.map_map]
    have h3 : s.data.map (Char.ofNat ∘ Char.toNat) = s.data.map id :=
      List.map_congr_left (fun a _ => Char.ofNat_toNat a)
    rw [h3, List.map_id]
  show String.mk ((s.data.map Char.toNat).map Char.ofNat) = s
  rw [h2]

theorem get_strings_from_pwstr_eq (buffer : List Nat) (size : Nat)
    (cs : List Nat) (h : utf16Decode (buffer.take size) = some cs) :
    get_strings_from_pwstr buffer size =
      .ok (((splitOnZero cs).map stringOfScalars).dropLast.dropLast) := by
  simp [get_strings_from_pwstr, h]

theorem get_strings_from_pwstr_eq_error (buffer : List Nat) (size : Nat)
    (h : utf16Decode (buffer.take size) = none) :
    get_strings_from_pwstr buffer size = .error .invalidUtf16 := by
  simp [get_strings_from_pwstr, h]

/-- C4: for every ordered sequence of N strings (N >= 0, no NUL chars in
any string) encoded as NUL-terminated 16-bit code units followed by one
extra terminating NUL, the Multi-String Decoder applied to that buffer with
its exact reported length returns exactly the original N strings in the
original order (the two trailing empty-string artifacts of the double
termination are removed by the two pops). -/
theorem c4_multi_string_decoder_roundtrip (ss : List String)
    (h : ∀ s ∈ ss, ∀ ch ∈ s.data, ch.toNat ≠ 0) :
    get_strings_from_pwstr (encodeMultiSz ss) (encodeMultiSz ss).length =
      .ok ss := by
  have hz : ∀ l ∈ ss.map stringScalars, ∀ c ∈ l, c ≠ 0 := by
    intro l hl c hcl
    simp only [List.mem_map] at hl
    obtain ⟨s, hs, rfl⟩ := hl
    simp only [stringScalars, List.mem_map] at hcl
    obtain ⟨ch, hch, rfl⟩ := hcl
    exact h s hs ch hch
  have hdec : utf16Decode ((encodeMultiSz ss).take (encodeMultiSz ss).length) =
      some (((ss.map (fun s => stringScalars s ++ [0])).flatten) ++ [0]) := by
    rw [List.take_length]
    exact utf16Decode_encodeMultiSz ss
  rw [get_strings_from_pwstr_eq _ _ _ hdec]
  have hsplit : splitOnZero (((ss.map (fun s => stringScalars s ++ [0])).flatten)
      ++ [0]) = ss.map stringScalars ++ [[], []] := by
    have h2 := splitOnZero_multiSz (ss.map stringScalars) hz
    rw [List.map_map] at h2
    exact h2
  rw [hsplit, List.map_append]
  rw [show (ss.map stringScalars).map stringOfScalars ++
        [[], []].map stringOfScalars =
      ((ss.map stringScalars).map stringOfScalars ++ [stringOfScalars []]) ++
        [stringOfScalars []] from by simp]
  rw [List.dropLast_concat, List.dropLast_concat, List.map_map]
  have hid : ss.map (stringOfScalars ∘ stringScalars) = ss := by
    have h3 : ss.map (stringOfScalars ∘ stringScalars) = ss.map id :=
      List.map_congr_left (fun a _ => stringOfScalars_stringScalars a)
    rw [h3, List.map_id]
  rw [hid]

/-- Witness for C4: decoding the encoding of the concrete list
["ab", "c"] with its exact length returns exactly ["ab", "c"]. -/
theorem c4_multi_string_decoder_roundtrip_witness :
    get_strings_from_pwstr (encodeMultiSz ["ab", "c"])
      (encodeMultiSz ["ab", "c"]).length = .ok ["ab", "c"] :=
  c4_multi_string_decoder_roundtrip ["ab", "c"] (by decide)

/-- C8 counterexample: decoding a buffer with a truncated length does not
fail — truncating the 3-unit encoding of ["a"] to length 2 leaves valid
text, and the decoder silently returns the empty list instead of a
DecodeError. -/
theorem c8_truncated_length_counterexample :
    get_strings_from_pwstr (encodeMultiSz ["a"]) 2 = .ok [] ∧
      2 ≠ (encodeMultiSz ["a"]).length := by decide

/-- C8 (amended): the Multi-String Decoder fails with a DecodeError exactly
when the length-truncated buffer is not valid 16-bit-code-unit (UTF-16)
text; a truncated length alone does not force a failure. -/
theorem c8_decode_error_iff (buffer : List Nat) (size : Nat) :
    get_strings_from_pwstr buffer size = .error .invalidUtf16 ↔
      utf16Decode (buffer.take size) = none := by
  constructor
  · intro h
    cases hdec : utf16Decode (buffer.take size) with
    | none => rfl
    | some cs =>
      rw [get_strings_from_pwstr_eq _ _ _ hdec] at h
      exact absurd h (by simp)
  · intro h
    exact get_strings_from_pwstr_eq_error _ _ h

/-! ## Timestamp Converter -/

/-- C5 counterexample: the converter is not monotonic on all non-negative
64-bit tick counts — 2 ^ 62 > 1 ≥ 0, yet the wrapped u64 multiplication by
100 maps 2 ^ 62 to offset 0, below the offset of 1. -/
theorem c5_monotonic_counterexample :
    ¬ (get_time_from_filetime (2 ^ 62) > get_time_from_filetime 1) ∧
      (2 ^ 62 : Int) > 1 ∧ (1 : Int) ≥ 0 := by
  refine ⟨?_, by decide, by decide⟩
  decide

/-- C5 (amended): the Timestamp Converter is monotonic on non-negative
inputs whose scaled value does not overflow 64 bits: for a > b >= 0 with
a * 100 < 2 ^ 64, convert(a) > convert(b); beyond that bound the u64
multiplication wraps and the claimed ordering fails. -/
theorem c5_monotonic_no_overflow (a b : Int) (h0 : 0 ≤ b) (hba : b < a)
    (hov : a * 100 < 2 ^ 64) :
    get_time_from_filetime a > get_time_from_filetime b := by
  unfold get_time_from_filetime
  have ha0 : 0 ≤ a := le_trans h0 (le_of_lt hba)
  have ha : a < 2 ^ 64 := by nlinarith
  have hb : b < 2 ^ 64 := lt_trans hba ha
  rw [Int.emod_eq_of_lt ha0 ha, Int.emod_eq_of_lt h0 hb]
  have h4 : a.toNat * 100 < 2 ^ 64 := by omega
  have h5 : b.toNat < a.toNat := by omega
  have h6 : b.toNat * 100 < 2 ^ 64 := by omega
  rw [Nat.mod_eq_of_lt h4, Nat.mod_eq_of_lt h6]
  omega

/-- Witness for the amended C5 at one second (10 ^ 7 ticks) versus one
tick. -/
theorem c5_monotonic_no_overflow_witness :
    get_time_from_filetime 10000000 > get_time_from_filetime 1 :=
  c5_monotonic_no_overflow 10000000 1 (by decide) (by decide) (by decide)

/-! ## get_all_counters -/

theorem foldl_append_flatMap (l : List α) (g : α → List β) (init : List β) :
    l.foldl (fun acc x => acc ++ g x) init = init ++ l.flatMap g := by
  induction l generalizing init with
  | nil => simp
  | cons a l ih =>
    simp only [List.foldl_cons, ih, List.flatMap_cons, List.append_assoc]

theorem flatMap_singleton_map (l : List α) (f : α → β) :
    l.flatMap (fun x => [f x]) = l.map f := by
  induction l with
  | nil => rfl
  | cons a l ih => simp [List.flatMap_cons, ih]

/-- C6: get_all_counters returns the fully-qualified counter paths of the
cross product machines x objects x instances x counters, ordered
machine-major, then object, then instance, then counter, each path of the
form machine-name, backslash, object, open-paren, instance, close-paren,
backslash, counter (the machine names stored in the summary already carry
the leading double backslash the enumeration reports them with). -/
theorem c6_get_all_counters_cross_product (s : PerfLogSummary) :
    get_all_counters s =
      s.machines.flatMap (fun m =>
        m.objects.flatMap (fun o =>
          o.instances.flatMap (fun i =>
            o.counters.map (fun c => counterPath m.name o.name i c)))) := by
  unfold get_all_counters
  simp only [foldl_append_flatMap, List.nil_append, flatMap_singleton_map,
    counterPath]

/-! ## Data Source Binder -/

theorem foldl_append_nullSeparated (files : List String) (init : String) :
    files.foldl (fun acc f => acc ++ f ++ "\x00") init =
      init ++ nullSeparated files := by
  induction files generalizing init with
  | nil => simp [nullSeparated]
  | cons f fs ih =>
    simp only [List.foldl_cons, nullSeparated, ih]
    simp [String.append_assoc]

/-- C9: the Data Source Binder passes an ordered list of file paths to the
native bind call as one single string: each path followed by a single NUL
separator, the whole list terminated by one extra NUL — not as a
language-native list. -/
theorem c9_bind_null_separated :
    (∀ files : List String, bind_file_list files = nullSeparated files ++ "\x00")
    ∧ (∀ (env : BindEnv) (files : List String),
        bind_input_logfiles env files =
          if (env.bind (nullSeparated files ++ "\x00")).1 ≠ 0
          then .error (.bindFailed (env.bind (nullSeparated files ++ "\x00")).1)
          else .ok (env.bind (nullSeparated files ++ "\x00")).2) := by
  have h1 : ∀ files : List String,
      bind_file_list files = nullSeparated files ++ "\x00" := by
    intro files
    unfold bind_file_list
    rw [foldl_append_nullSeparated files ""]
    simp
  refine ⟨h1, fun env files => ?_⟩
  unfold bind_input_logfiles
  rw [h1]

/-! ## Catalog Walker -/

theorem enum_object_items_none (env : CatalogEnv) (m o : String)
    (h : enum_object_items env m o = .ok none) :
    (env.itemsFirst m o).1 = PDH_CSTATUS_NO_OBJECT := by
  unfold enum_object_items at h
  split at h
  next h1 => exact h1
  next h1 =>
    split at h
    · simp at h
    · split at h
      · simp at h
      · split at h
        · simp at h
        · split at h
          · simp at h
          · simp at h

theorem enum_object_items_ne_of_some (env : CatalogEnv) (m o : String)
    (x : List String × List String)
    (h : enum_object_items env m o = .ok (some x)) :
    (env.itemsFirst m o).1 ≠ PDH_CSTATUS_NO_OBJECT := by
  intro hcontra
  unfold enum_object_items at h
  rw [if_pos hcontra] at h
  simp at h

theorem walkObjects_spec (env : CatalogEnv) (m : String) (names : List String)
    (objs : List ObjectSummary) (h : walkObjects env m names = .ok objs) :
    objs.map ObjectSummary.name =
      names.filter
        (fun o => !((env.itemsFirst m o).1 == PDH_CSTATUS_NO_OBJECT)) := by
  induction names generalizing objs with
  | nil =>
    simp only [walkObjects] at h
    injection h with h2
    subst h2
    rfl
  | cons o rest ih =>
    simp only [walkObjects] at h
    split at h
    next e heq => simp at h
    next heq =>
      have h1 := enum_object_items_none env m o heq
      rw [List.filter_cons, if_neg (by simp [h1])]
      exact ih objs h
    next cns ins heq =>
      split at h
      next e heq2 => simp at h
      next objs2 heq2 =>
        injection h with h2
        subst h2
        have hne := enum_object_items_ne_of_some env m o (cns, ins) heq
        rw [List.filter_cons, List.map_cons, if_pos (by simp [hne]),
          ih objs2 heq2]

theorem walkMachines_spec (env : CatalogEnv) (names : List String)
    (ms : List MachineSummary) (h : walkMachines env names = .ok ms) :
    ms.map MachineSummary.name = names ∧
      ∀ m ∈ ms, ∃ onames, enum_objects env m.name = .ok onames ∧
        walkObjects env m.name onames = .ok m.objects := by
  induction names generalizing ms with
  | nil =>
    simp only [walkMachines] at h
    injection h with h2
    subst h2
    exact ⟨rfl, by simp⟩
  | cons machine rest ih =>
    simp only [walkMachines] at h
    split at h
    next e heq => simp at h
    next onames heq =>
      split at h
      next e heq2 => simp at h
      next objs heq2 =>
        split at h
        next e heq3 => simp at h
        next ms2 heq3 =>
          injection h with h2
          subst h2
          obtain ⟨ih1, ih2⟩ := ih ms2 heq3
          refine ⟨by simp [ih1], ?_⟩
          intro m hmem
          rcases List.mem_cons.mp hmem with rfl | hmem2
          · exact ⟨onames, heq, heq2⟩
          · exact ih2 m hmem2

/-- C3: on every successful catalog walk, every object present in the
returned summary has a non-failing item enumeration (its first-phase
status is not PDH_CSTATUS_NO_OBJECT); the summary contains one machine per
enumerated machine name (machines are never dropped); and each machine's
objects list is exactly its enumerated object names with the
PDH_CSTATUS_NO_OBJECT ones dropped — no empty placeholder is kept and the
walk continues past them. -/
theorem c3_no_object_dropped (env : CatalogEnv) (s : PerfLogSummary)
    (h : get_perflog_summary env = .ok s) :
    (∀ m ∈ s.machines, ∀ o ∈ m.objects,
        (env.itemsFirst m.name o.name).1 ≠ PDH_CSTATUS_NO_OBJECT) ∧
    (∀ names, enum_machines env = .ok names →
        s.machines.map MachineSummary.name = names) ∧
    (∀ m ∈ s.machines, ∀ onames, enum_objects env m.name = .ok onames →
        m.objects.map ObjectSummary.name =
          onames.filter
            (fun o => !((env.itemsFirst m.name o).1 == PDH_CSTATUS_NO_OBJECT))) := by
  unfold get_perflog_summary at h
  split at h
  next e heq => simp at h
  next mnames heq =>
    split at h
    next e heq2 => simp at h
    next machines heq2 =>
      split at h
      next e heq3 => simp at h
      next t heq3 =>
        injection h with h2
        subst h2
        obtain ⟨hnames, hper⟩ := walkMachines_spec env mnames machines heq2
        refine ⟨?_, ?_, ?_⟩
        · intro m hmem o homem
          obtain ⟨onames, ho, hwo⟩ := hper m hmem
          have hmap := walkObjects_spec env m.name onames m.objects hwo
          have hmm : o.name ∈ m.objects.map ObjectSummary.name :=
            List.mem_map_of_mem _ homem
          rw [hmap] at hmm
          have := List.of_mem_filter hmm
          simpa using this
        · intro names hnames2
          rw [heq] at hnames2
          injection hnames2 with h3
          rw [← h3]
          exact hnames
        · intro m hmem onames ho2
          obtain ⟨onames1, ho1, hw1⟩ := hper m hmem
          rw [ho1] at ho2
          injection ho2 with h4
          subst h4
          exact walkObjects_spec env m.name onames1 m.objects hw1

/-- Witness for C3 on the concrete two-machine catalog: both machines
appear in the summary, and the objects list of machine B is exactly the
filter that drops its PDH_CSTATUS_NO_OBJECT object (the empty list). -/
theorem c3_no_object_dropped_witness :
    summaryTwoMachines.machines.map MachineSummary.name = ["A", "B"] ∧
      (⟨"B", []⟩ : MachineSummary).objects.map ObjectSummary.name =
        List.filter
          (fun o => !((envTwoMachines.itemsFirst "B" o).1 == PDH_CSTATUS_NO_OBJECT))
          ["P"] := by
  have h := c3_no_object_dropped envTwoMachines summaryTwoMachines (by decide)
  exact ⟨h.2.1 ["A", "B"] (by decide), h.2.2 ⟨"B", []⟩ (by decide) ["P"] (by decide)⟩

/-! ## Association-list map lemmas -/

theorem alookup_insertReplace_self (k : String) (v : α) (m : List (String × α)) :
    alookup k (insertReplace k v m) = some v := by
  induction m with
  | nil => simp [insertReplace, alookup]
  | cons kv rest ih =>
    obtain ⟨k2, w⟩ := kv
    by_cases h : k2 = k
    · simp [insertReplace, h, alookup]
    · simp [insertReplace, h, alookup, ih]

theorem alookup_insertReplace_ne (k p : String) (v : α) (m : List (String × α))
    (h : p ≠ k) :
    alookup p (insertReplace k v m) = alookup p m := by
  induction m with
  | nil => simp [insertReplace, alookup, Ne.symm h]
  | cons kv rest ih =>
    obtain ⟨k2, w⟩ := kv
    by_cases h2 : k2 = k
    · subst h2
      simp [insertReplace, alookup, Ne.symm h]
    · simp [insertReplace, h2, alookup, ih]

theorem alookup_isSome_iff_mem_keys (p : String) (m : List (String × α)) :
    (alookup p m).isSome ↔ p ∈ m.map Prod.fst := by
  induction m with
  | nil => simp [alookup]
  | cons kv rest ih =>
    obtain ⟨k2, w⟩ := kv
    by_cases h : k2 = p
    · simp [alookup, h]
    · simp [alookup, h, Ne.symm h, ih]

theorem keys_insertReplace (k : String) (v : α) (m : List (String × α)) :
    (insertReplace k v m).map Prod.fst =
      if k ∈ m.map Prod.fst then m.map Prod.fst else m.map Prod.fst ++ [k] := by
  induction m with
  | nil => simp [insertReplace]
  | cons kv rest ih =>
    obtain ⟨k2, w⟩ := kv
    by_cases h : k2 = k
    · subst h
      simp [insertReplace]
    · simp only [insertReplace, if_neg h, List.map_cons, ih]
      by_cases h3 : k ∈ rest.map Prod.fst
      · rw [if_pos h3, if_pos (List.mem_cons_of_mem _ h3)]
      · rw [if_neg h3, if_neg (by simp [h3, Ne.symm h]), List.cons_append]

theorem keys_nodup_insertReplace (k : String) (v : α) (m : List (String × α))
    (h : (m.map Prod.fst).Nodup) :
    ((insertReplace k v m).map Prod.fst).Nodup := by
  rw [keys_insertReplace]
  split
  · exact h
  · next h2 => simp [List.nodup_append, h, h2]

/-! ## Frame lemmas for the collection loop: the loop never touches the
handles map and never adds or removes a key of the data map. -/

theorem processCounter_frame (env : ReadEnv) (k t : Nat) (name : String)
    (hdl : Int) (st : RState) :
    (processCounter env k t name hdl st).1.handles = st.handles ∧
      (processCounter env k t name hdl st).1.data.map Prod.fst =
        st.data.map Prod.fst := by
  unfold processCounter
  split
  · exact ⟨rfl, rfl⟩
  · split
    · split
      · split
        next vs hl =>
          refine ⟨rfl, ?_⟩
          show (insertReplace name _ st.data).map Prod.fst = st.data.map Prod.fst
          rw [keys_insertReplace]
          rw [if_pos ((alookup_isSome_iff_mem_keys name st.data).mp (by simp [hl]))]
        next hl => exact ⟨rfl, rfl⟩
      · exact ⟨rfl, rfl⟩
    · exact ⟨rfl, rfl⟩

theorem processStep_frame (env : ReadEnv) (k t : Nat)
    (hl : List (String × Int)) (st : RState) :
    (processStep env k t hl st).1.handles = st.handles ∧
      (processStep env k t hl st).1.data.map Prod.fst =
        st.data.map Prod.fst := by
  induction hl generalizing st with
  | nil => exact ⟨rfl, rfl⟩
  | cons nh rest ih =>
    obtain ⟨name, hdl⟩ := nh
    unfold processStep
    have hf := processCounter_frame env k t name hdl st
    cases hp : processCounter env k t name hdl st with
    | mk st2 e =>
      rw [hp] at hf
      cases e with
      | none => exact ⟨(ih st2).1.trans hf.1, (ih st2).2.trans hf.2⟩
      | some e2 => exact ⟨hf.1, hf.2⟩

theorem collectLoop_frame (env : ReadEnv) (fuel : Nat) :
    ∀ (k : Nat) (st st2 : RState) (e : Option RunError),
      collectLoop env fuel k st = some (st2, e) →
      st2.handles = st.handles ∧
        st2.data.map Prod.fst = st.data.map Prod.fst := by
  induction fuel with
  | zero => intro k st st2 e h; simp [collectLoop] at h
  | succ fuel ih =>
    intro k st st2 e h
    unfold collectLoop at h
    split at h
    · injection h with h1
      injection h1 with h2 h3
      subst h2
      exact ⟨rfl, rfl⟩
    · split at h
      next st3 heq =>
        have hf := processStep_frame env k
          (get_time_from_filetime (env.collect k).2) st.handles
          { st with events := st.events ++ [.collectData] }
        rw [heq] at hf
        obtain ⟨h1, h2⟩ := ih (k + 1) st3 st2 e h
        exact ⟨h1.trans hf.1, h2.trans hf.2⟩
      next st3 e2 heq =>
        injection h with h1
        injection h1 with h2 h3
        subst h2
        have hf := processStep_frame env k
          (get_time_from_filetime (env.collect k).2) st.handles
          { st with events := st.events ++ [.collectData] }
        rw [heq] at hf
        exact ⟨hf.1, hf.2⟩

/-! ## Registration lemmas: duplicate paths collapse to one map entry, and
the stored handle is the one of the last registration of the path. -/

theorem registerCounters_spec (env : ReadEnv) (paths : List String) :
    ∀ (i : Nat) (st st2 : RState),
      registerCounters env paths i st = (st2, none) →
      (∀ p, alookup p st2.handles =
          match lastValue p ((paths.enumFrom i).map
              (fun ip => (ip.2, (env.addCounter ip.1).2))) with
          | some w => some w
          | none => alookup p st.handles) ∧
      (∀ p, (alookup p st2.data).isSome ↔ p ∈ paths ∨ (alookup p st.data).isSome) ∧
      ((st.data.map Prod.fst).Nodup → (st2.data.map Prod.fst).Nodup) := by
  induction paths with
  | nil =>
    intro i st st2 h
    simp only [registerCounters] at h
    injection h with h1 h2
    subst h1
    exact ⟨fun p => rfl, fun p => by simp, fun hn => hn⟩
  | cons c rest ih =>
    intro i st st2 h
    simp only [registerCounters] at h
    split at h
    · injection h with h1 h2
      simp at h2
    · next h0 =>
      obtain ⟨ih1, ih2, ih3⟩ := ih (i + 1) _ st2 h
      refine ⟨fun p => ?_, fun p => ?_, fun hn => ?_⟩
      · rw [ih1 p]
        rw [show (c :: rest).enumFrom i = (i, c) :: rest.enumFrom (i + 1) from rfl,
          List.map_cons]
        cases hlv : lastValue p ((rest.enumFrom (i + 1)).map
            (fun ip => (ip.2, (env.addCounter ip.1).2))) with
        | some w => simp [lastValue, hlv]
        | none =>
          simp only [lastValue, hlv]
          by_cases hpc : p = c
          · subst hpc
            rw [if_pos rfl]
            show alookup p (insertReplace p (env.addCounter i).2 st.handles) =
              some (env.addCounter i).2
            exact alookup_insertReplace_self p _ st.handles
          · rw [if_neg (fun hh => hpc hh.symm)]
            show alookup p (insertReplace c (env.addCounter i).2 st.handles) =
              alookup p st.handles
            exact alookup_insertReplace_ne c p _ st.handles hpc
      · rw [ih2 p]
        by_cases hpc : p = c
        · subst hpc
          have : alookup p (insertReplace p ([] : List CounterValueWithTime)
              st.data) = some [] := alookup_insertReplace_self p [] st.data
          show p ∈ rest ∨ (alookup p (insertReplace p ([] : List CounterValueWithTime) st.data)).isSome ↔ _
          simp [this]
        · have : alookup p (insertReplace c ([] : List CounterValueWithTime)
              st.data) = alookup p st.data :=
            alookup_insertReplace_ne c p [] st.data hpc
          show p ∈ rest ∨ (alookup p (insertReplace c ([] : List CounterValueWithTime) st.data)).isSome ↔ _
          simp [this, List.mem_cons, hpc]
      · exact ih3 (keys_nodup_insertReplace c [] st.data hn)

/-! ## Event-trace lemmas: which native calls each phase of
read_counter_values makes. -/

theorem processCounter_events (env : ReadEnv) (k t : Nat) (name : String)
    (hdl : Int) (st : RState) :
    ∃ tail, (processCounter env k t name hdl st).1.events = st.events ++ tail ∧
      ∀ x ∈ tail, x = PdhEvent.formatValue := by
  unfold processCounter
  split
  · exact ⟨[.formatValue], rfl, by simp⟩
  · split
    · split
      · split
        next vs hl => exact ⟨[.formatValue], rfl, by simp⟩
        next hl => exact ⟨[.formatValue], rfl, by simp⟩
      · exact ⟨[.formatValue], rfl, by simp⟩
    · exact ⟨[.formatValue], rfl, by simp⟩

theorem processStep_events (env : ReadEnv) (k t : Nat)
    (hl : List (String × Int)) (st : RState) :
    ∃ tail, (processStep env k t hl st).1.events = st.events ++ tail ∧
      ∀ x ∈ tail, x = PdhEvent.formatValue := by
  induction hl generalizing st with
  | nil => exact ⟨[], by simp [processStep], by simp⟩
  | cons nh rest ih =>
    obtain ⟨name, hdl⟩ := nh
    unfold processStep
    obtain ⟨t1, he1, ha1⟩ := processCounter_events env k t name hdl st
    cases hp : processCounter env k t name hdl st with
    | mk st2 e =>
      rw [hp] at he1
      cases e with
      | none =>
        obtain ⟨t2, he2, ha2⟩ := ih st2
        refine ⟨t1 ++ t2, ?_, ?_⟩
        · show (processStep env k t rest st2).1.events = st.events ++ (t1 ++ t2)
          rw [he2, he1, List.append_assoc]
        · intro x hx
          rcases List.mem_append.mp hx with hx | hx
          exacts [ha1 x hx, ha2 x hx]
      | some e2 =>
        refine ⟨t1, ?_, ha1⟩
        show st2.events = st.events ++ t1
        exact he1

theorem registerCounters_events (env : ReadEnv) (paths : List String) :
    ∀ (i : Nat) (st : RState),
      ∃ tail, (registerCounters env paths i st).1.events = st.events ++ tail ∧
        ∀ x ∈ tail, x = PdhEvent.addCounter := by
  induction paths with
  | nil => intro i st; exact ⟨[], by simp [registerCounters], by simp⟩
  | cons c rest ih =>
    intro i st
    unfold registerCounters
    split
    · exact ⟨[.addCounter], rfl, by simp⟩
    · obtain ⟨tail, he, ha⟩ := ih (i + 1)
        { st with
            events := st.events ++ [.addCounter],
            handles := insertReplace c (env.addCounter i).2 st.handles,
            data := insertReplace c [] st.data }
      refine ⟨[.addCounter] ++ tail, he.trans (List.append_assoc _ _ _), ?_⟩
      intro x hx
      rcases List.mem_append.mp hx with hx | hx
      · simpa using hx
      · exact ha x hx

theorem collectLoop_events (env : ReadEnv) (fuel : Nat) :
    ∀ (k : Nat) (st st2 : RState) (e : Option RunError),
      collectLoop env fuel k st = some (st2, e) →
      ∃ tail, st2.events = st.events ++ tail ∧
        ∀ x ∈ tail, x = PdhEvent.collectData ∨ x = PdhEvent.formatValue := by
  induction fuel with
  | zero => intro k st st2 e h; simp [collectLoop] at h
  | succ fuel ih =>
    intro k st st2 e h
    unfold collectLoop at h
    split at h
    · injection h with h1
      injection h1 with h2 h3
      subst h2
      exact ⟨[.collectData], rfl, by simp⟩
    · split at h
      next st3 heq =>
        obtain ⟨t2, he2, ha2⟩ := ih (k + 1) st3 st2 e h
        obtain ⟨t1, he1, ha1⟩ := processStep_events env k
          (get_time_from_filetime (env.collect k).2) st.handles
          { st with events := st.events ++ [.collectData] }
        rw [heq] at he1
        refine ⟨[.collectData] ++ t1 ++ t2, ?_, ?_⟩
        · rw [he2]
          have he4 : st3.events = (st.events ++ [PdhEvent.collectData]) ++ t1 := he1
          rw [he4]
          simp [List.append_assoc]
        · intro x hx
          rcases List.mem_append.mp hx with hx | hx
          · rcases List.mem_append.mp hx with hx | hx
            · left; simpa using hx
            · right; exact ha1 x hx
          · exact ha2 x hx
      next st3 e2 heq =>
        injection h with h1
        injection h1 with h2 h3
        subst h2
        obtain ⟨t1, he1, ha1⟩ := processStep_events env k
          (get_time_from_filetime (env.collect k).2) st.handles
          { st with events := st.events ++ [.collectData] }
        rw [heq] at he1
        refine ⟨[.collectData] ++ t1, ?_, ?_⟩
        · have he4 : st3.events = (st.events ++ [PdhEvent.collectData]) ++ t1 := he1
          rw [he4, List.append_assoc]
        · intro x hx
          rcases List.mem_append.mp hx with hx | hx
          · left; simpa using hx
          · right; exact ha1 x hx

theorem count_eq_zero_of_ne (l : List PdhEvent) (y : PdhEvent)
    (h : ∀ x ∈ l, x ≠ y) : l.count y = 0 :=
  List.count_eq_zero.mpr (fun hmem => h y hmem rfl)

/-! ## Claim theorems for the Counter Value Reader -/

/-- C1 counterexample: a run whose first advance fails with status 1 — a
code that is neither success nor the log-exhaustion code PDH_NO_MORE_DATA —
still ends collection as normal termination (no error is raised): the loop
breaks on any non-zero status, not on the specific exhaustion code. -/
theorem c1_nonexhaustion_status_counterexample :
    read_counter_values envAdvanceOther [] 1 =
      some (⟨[], [], [], [.openQuery, .collectData]⟩, none) ∧
      (envAdvanceOther.collect 0).1 ≠ 0 ∧
      (envAdvanceOther.collect 0).1 ≠ PDH_NO_MORE_DATA := by
  decide

/-- C1 (amended): in the collection loop of the Counter Value Reader, any
failing advance — any non-zero status, whether or not it is the
log-exhaustion code — ends collection as normal termination; the code does
not distinguish exhaustion from other failure codes. -/
theorem c1_any_failure_ends_loop (env : ReadEnv) (fuel k : Nat) (st : RState)
    (h : (env.collect k).1 ≠ 0) :
    collectLoop env (fuel + 1) k st =
      some ({ st with events := st.events ++ [.collectData] }, none) := by
  unfold collectLoop
  rw [if_pos h]

/-- Witness for the amended C1: an advance status of 1 terminates the loop
normally. -/
theorem c1_any_failure_ends_loop_witness :
    collectLoop envAdvanceOther 1 0 ⟨[], [], [], []⟩ =
      some (⟨[], [], [], [.collectData]⟩, none) :=
  c1_any_failure_ends_loop envAdvanceOther 0 0 ⟨[], [], [], []⟩ (by decide)

/-- C2: for a registered counter at a successful advance, the format call
is handled by cases: on PDH_INVALID_DATA nothing is recorded and an
invalid-data diagnostic is reported, collection continuing; on a zero call
status with a non-zero per-value CStatus nothing is recorded and a
CStatus diagnostic is reported, the run not aborted; on any other failing
status the read aborts as fatal; and on full success exactly one Large
(64-bit integer) sample carrying the step's converted timestamp is
appended to that counter's series, every other series left unchanged and
no diagnostic added. -/
theorem c2_format_value_cases (env : ReadEnv) (k t : Nat) (name : String)
    (hdl : Int) (st : RState) (vs : List CounterValueWithTime)
    (hmem : alookup name st.data = some vs) :
    ((env.format k hdl).status = PDH_INVALID_DATA →
      processCounter env k t name hdl st =
        ({ st with
            events := st.events ++ [.formatValue],
            diags := st.diags ++ [.invalidData t name] }, none)) ∧
    ((env.format k hdl).status = 0 → (env.format k hdl).cstatus ≠ 0 →
      processCounter env k t name hdl st =
        ({ st with
            events := st.events ++ [.formatValue],
            diags := st.diags ++
              [.unexpectedCStatus t name (env.format k hdl).cstatus] }, none)) ∧
    ((env.format k hdl).status ≠ 0 →
      (env.format k hdl).status ≠ PDH_INVALID_DATA →
      processCounter env k t name hdl st =
        ({ st with events := st.events ++ [.formatValue] },
          some (.formatFailed (env.format k hdl).status))) ∧
    ((env.format k hdl).status = 0 → (env.format k hdl).cstatus = 0 →
      (processCounter env k t name hdl st).2 = none ∧
      alookup name (processCounter env k t name hdl st).1.data =
        some (vs ++ [.large t (env.format k hdl).largeValue]) ∧
      (∀ p, p ≠ name →
        alookup p (processCounter env k t name hdl st).1.data =
          alookup p st.data) ∧
      (processCounter env k t name hdl st).1.diags = st.diags) := by
  refine ⟨fun h1 => ?_, fun h1 h2 => ?_, fun h1 h2 => ?_, fun h1 h2 => ?_⟩
  · unfold processCounter
    rw [if_pos h1]
  · unfold processCounter
    rw [if_neg (fun hc => by rw [h1] at hc; exact absurd hc (by decide)),
      if_pos h1, if_neg h2]
  · unfold processCounter
    rw [if_neg h2, if_neg h1]
  · unfold processCounter
    rw [if_neg (fun hc => by rw [h1] at hc; exact absurd hc (by decide)),
      if_pos h1, if_pos h2, hmem]
    refine ⟨rfl, ?_, fun p hp => ?_, rfl⟩
    · show alookup name (insertReplace name
        (vs ++ [.large t (env.format k hdl).largeValue]) st.data) = _
      exact alookup_insertReplace_self name _ st.data
    · show alookup p (insertReplace name
        (vs ++ [.large t (env.format k hdl).largeValue]) st.data) =
          alookup p st.data
      exact alookup_insertReplace_ne name p _ st.data hp

/-- Witness for C2 in the full-success case: one Large sample with the
step timestamp and the formatted value is appended to the registered
counter's (previously empty) series and no error is raised. -/
theorem c2_format_value_cases_witness :
    (processCounter envFormatOk 0 5 "c" 7 ⟨[], [("c", [])], [], []⟩).2 = none ∧
      alookup "c"
        (processCounter envFormatOk 0 5 "c" 7 ⟨[], [("c", [])], [], []⟩).1.data =
        some ([] ++ [.large 5 42]) := by
  have h := c2_format_value_cases envFormatOk 0 5 "c" 7
    ⟨[], [("c", [])], [], []⟩ [] (by decide)
  have h4 := h.2.2.2 (by decide) (by decide)
  exact ⟨h4.1, h4.2.1⟩

/-- C7: read_counter_values opens its query exactly once and, on every
terminating run (normal or fatal), never emits a close for it — the source
contains no PdhCloseQuery call, so the query handle is never released,
contradicting the release-exactly-once requirement. -/
theorem c7_query_opened_never_closed (env : ReadEnv) (paths : List String)
    (fuel : Nat) (st : RState) (e : Option RunError)
    (h : read_counter_values env paths fuel = some (st, e)) :
    st.events.count PdhEvent.openQuery = 1 ∧
      st.events.count PdhEvent.closeQuery = 0 := by
  unfold read_counter_values at h
  split at h
  · injection h with h1
    injection h1 with h2 h3
    subst h2
    exact ⟨by decide, by decide⟩
  · split at h
    next st1 e1 heq =>
      injection h with h1
      injection h1 with h2 h3
      subst h2
      obtain ⟨t1, he1, ha1⟩ :=
        registerCounters_events env paths 0 ⟨[], [], [], [.openQuery]⟩
      rw [heq] at he1
      have he2 : st1.events = [PdhEvent.openQuery] ++ t1 := he1
      have hz1 : t1.count PdhEvent.openQuery = 0 :=
        count_eq_zero_of_ne t1 _ (fun x hx => by rw [ha1 x hx]; simp)
      have hz2 : t1.count PdhEvent.closeQuery = 0 :=
        count_eq_zero_of_ne t1 _ (fun x hx => by rw [ha1 x hx]; simp)
      constructor
      · rw [he2, List.count_append, hz1]
        decide
      · rw [he2, List.count_append, hz2]
        decide
    next st1 heq =>
      obtain ⟨t1, he1, ha1⟩ :=
        registerCounters_events env paths 0 ⟨[], [], [], [.openQuery]⟩
      rw [heq] at he1
      have he2 : st1.events = [PdhEvent.openQuery] ++ t1 := he1
      obtain ⟨t2, he3, ha2⟩ := collectLoop_events env fuel 0 st1 st e h
      have hz1 : t1.count PdhEvent.openQuery = 0 :=
        count_eq_zero_of_ne t1 _ (fun x hx => by rw [ha1 x hx]; simp)
      have hz2 : t1.count PdhEvent.closeQuery = 0 :=
        count_eq_zero_of_ne t1 _ (fun x hx => by rw [ha1 x hx]; simp)
      have hz3 : t2.count PdhEvent.openQuery = 0 :=
        count_eq_zero_of_ne t2 _
          (fun x hx => by rcases ha2 x hx with h4 | h4 <;> simp [h4])
      have hz4 : t2.count PdhEvent.closeQuery = 0 :=
        count_eq_zero_of_ne t2 _
          (fun x hx => by rcases ha2 x hx with h4 | h4 <;> simp [h4])
      constructor
      · rw [he3, he2, List.count_append, List.count_append, hz1, hz3]
        decide
      · rw [he3, he2, List.count_append, List.count_append, hz2, hz4]
        decide

/-- Witness for C7 on a concrete completed run: one openQuery call, zero
closeQuery calls. -/
theorem c7_query_opened_never_closed_witness :
    (⟨[], [], [], [.openQuery, .collectData]⟩ : RState).events.count
        PdhEvent.openQuery = 1 ∧
      (⟨[], [], [], [.openQuery, .collectData]⟩ : RState).events.count
        PdhEvent.closeQuery = 0 :=
  c7_query_opened_never_closed envAdvanceOther [] 1
    ⟨[], [], [], [.openQuery, .collectData]⟩ none (by decide)

/-- C10: for every requested path list, duplicates included, a successful
read returns a data map whose key set is exactly the set of distinct
requested paths (one series entry per distinct path, keys without
duplicates), and the handles map — the map the per-advance polling
iterates — holds for each path only the handle produced by its last
registration call. -/
theorem c10_duplicate_paths_single_entry (env : ReadEnv)
    (paths : List String) (fuel : Nat) (st : RState)
    (h : read_counter_values env paths fuel = some (st, none)) :
    (∀ p, (alookup p st.data).isSome ↔ p ∈ paths) ∧
      (st.data.map Prod.fst).Nodup ∧
      (∀ p, alookup p st.handles = lastValue p (regPairs env paths)) := by
  unfold read_counter_values at h
  split at h
  · injection h with h1
    injection h1 with h2 h3
    simp at h3
  · next h0 =>
    split at h
    next st1 e heq =>
      injection h with h1
      injection h1 with h2 h3
      simp at h3
    next st1 heq =>
      obtain ⟨hH, hK⟩ := collectLoop_frame env fuel 0 st1 st none h
      obtain ⟨r1, r2, r3⟩ :=
        registerCounters_spec env paths 0 ⟨[], [], [], [.openQuery]⟩ st1 heq
      refine ⟨fun p => ?_, ?_, fun p => ?_⟩
      · have h1 : (alookup p st.data).isSome ↔ (alookup p st1.data).isSome := by
          rw [alookup_isSome_iff_mem_keys, alookup_isSome_iff_mem_keys, hK]
        rw [h1, r2 p]
        simp [alookup]
      · rw [hK]
        exact r3 (by simp)
      · rw [hH, r1 p]
        cases hlv : lastValue p ((paths.enumFrom 0).map
            (fun ip => (ip.2, (env.addCounter ip.1).2))) with
        | some w => simp [hlv, regPairs, List.enum]
        | none => simp [hlv, regPairs, List.enum, alookup]

/-- Witness for C10 on the duplicate request ["a", "b", "a"]: the handle
kept for path a is that of its last (third) registration, and the data map
has a single entry for a. -/
theorem c10_duplicate_paths_single_entry_witness :
    alookup "a" ([("a", 102), ("b", 101)] : List (String × Int)) =
      lastValue "a" (regPairs envDupReg ["a", "b", "a"]) ∧
      ((alookup "a" [("a", ([] : List CounterValueWithTime)), ("b", [])]).isSome
        ↔ "a" ∈ ["a", "b", "a"]) := by
  have h := c10_duplicate_paths_single_entry envDupReg ["a", "b", "a"] 1
    ⟨[("a", 102), ("b", 101)], [("a", []), ("b", [])], [],
      [.openQuery, .addCounter, .addCounter, .addCounter, .collectData]⟩
    (by decide)
  exact ⟨h.2.2 "a", h.1 "a"⟩

end PerfLogTool
